import Mathlib

/-!
Verification of the animated-gizmo core of `bevy_gizmos` (the animated
builders of `src/animated/mod.rs`, their percentage sampler, and the
from/to/center arc parameter converter of `src/arcs/helper.rs`).

The embedding is generic over a linear ordered field `K` with a floor
structure, mirroring the source's `f32` arithmetic as exact field
arithmetic: Rust's `%` on floats is the truncated remainder and
`f32::clamp` clamps into the closed interval.  Theorems about π-valued
inputs instantiate `K := ℝ`; concrete witnesses instantiate `K := ℚ`.
The transcendental primitives of the external `bevy_math`/`glam` crate
(square root, arc cosine, sine, cosine, π) are passed as an explicit
`RealOps` record and instantiated with the real functions in theorems.
-/

set_option linter.unusedSectionVars false

namespace AnimatedGizmos

variable {K : Type} [LinearOrderedField K] [FloorRing K] {C : Type}

/-- Truncation toward zero, as Rust's float `trunc` underlying `%`. -/
def truncToZero (x : K) : ℤ := if 0 ≤ x then ⌊x⌋ else ⌈x⌉

/-- Rust's `%` on floats (for a nonzero divisor): the remainder
`a - b * trunc (a / b)`, which carries the sign of the dividend. -/
def rustRem (a b : K) : K := a - b * (truncToZero (a / b) : K)

/-- Rust's `f32::clamp(lo, hi)` (defined for `lo ≤ hi`). -/
def rustClamp (x lo hi : K) : K := if x < lo then lo else if x > hi then hi else x

/-- `sample_percentages` from `bevy_gizmos/src/animated/mod.rs`: the iterator
`(0..=num_segments)` piped through the source's four `map` closures, realized
as a list of `[start, end]` windows (pairs). -/
def sample_percentages (num_segments : ℕ) (delta_t speed : K) : List (K × K) :=
  let num : K := (num_segments : K)
  ((((List.range (num_segments + 1)).map
      (fun frac : ℕ => (frac : K) / num)).map
      (fun percent => percent + delta_t * speed)).map
      (fun percent => rustRem percent (1 + num⁻¹))).map
      (fun percent =>
        let segment_length := (num * 2)⁻¹
        (rustClamp (percent - segment_length) 0 1, rustClamp percent 0 1))

/-- The first three stages of `sample_percentages` (the unclamped phases):
used to express "absent wraparound" as monotonicity of the phase list. -/
def samplePhases (num_segments : ℕ) (delta_t speed : K) : List K :=
  let num : K := (num_segments : K)
  (((List.range (num_segments + 1)).map
      (fun frac : ℕ => (frac : K) / num)).map
      (fun percent => percent + delta_t * speed)).map
      (fun percent => rustRem percent (1 + num⁻¹))

/-- The sampler written out exactly as the spec's numbered steps state it
(base, offset, modulo_period, phase, half_dash_length, clamped window); used
only to compare against the source's `sample_percentages`. -/
def sample_spec (n : ℕ) (elapsed_time speed : K) : List (K × K) :=
  (List.range (n + 1)).map (fun i : ℕ =>
    let base : K := (i : K) / (n : K)
    let offset := base + elapsed_time * speed
    let modulo_period : K := 1 + 1 / (n : K)
    let phase := rustRem offset modulo_period
    let half_dash_length : K := 1 / (2 * (n : K))
    (rustClamp (phase - half_dash_length) 0 1, rustClamp phase 0 1))

/-- The window a single phase is clamped to (the sampler's last stage). -/
def windowOf (num_segments : ℕ) (phase : K) : K × K :=
  (rustClamp (phase - ((num_segments : K) * 2)⁻¹) 0 1, rustClamp phase 0 1)

theorem samplePhases_eq (num_segments : ℕ) (delta_t speed : K) :
    samplePhases num_segments delta_t speed =
      (List.range (num_segments + 1)).map
        (fun i : ℕ => rustRem ((i : K) / (num_segments : K) + delta_t * speed)
          (1 + ((num_segments : K))⁻¹)) := by
  simp [samplePhases, List.map_map, Function.comp]

theorem sample_percentages_eq (num_segments : ℕ) (delta_t speed : K) :
    sample_percentages num_segments delta_t speed =
      (samplePhases num_segments delta_t speed).map (windowOf num_segments) := by
  simp [sample_percentages, samplePhases, windowOf, List.map_map, Function.comp]

theorem sample_percentages_length (num_segments : ℕ) (delta_t speed : K) :
    (sample_percentages num_segments delta_t speed).length = num_segments + 1 := by
  simp [sample_percentages]

/- ### Elementary facts about `rustClamp` and `rustRem` -/

theorem rustClamp_nonneg (x : K) (hi : K) (hhi : 0 ≤ hi) : 0 ≤ rustClamp x 0 hi := by
  unfold rustClamp
  split_ifs <;> first | rfl | linarith

theorem rustClamp_le_hi (x : K) (hi : K) (hhi : 0 ≤ hi) : rustClamp x 0 hi ≤ hi := by
  unfold rustClamp
  split_ifs <;> linarith

theorem rustClamp_mono {x y : K} {lo hi : K} (hlh : lo ≤ hi) (h : x ≤ y) :
    rustClamp x lo hi ≤ rustClamp y lo hi := by
  unfold rustClamp
  split_ifs <;> linarith

theorem rustClamp_sub_le {x y : K} (lo hi : K) (h : x ≤ y) :
    rustClamp y lo hi - rustClamp x lo hi ≤ y - x := by
  unfold rustClamp
  split_ifs <;> linarith

theorem rustClamp_eq_self {x lo hi : K} (h1 : lo ≤ x) (h2 : x ≤ hi) :
    rustClamp x lo hi = x := by
  unfold rustClamp
  split_ifs <;> linarith

theorem rustRem_nonneg {a b : K} (hb : 0 < b) (ha : 0 ≤ a) : 0 ≤ rustRem a b := by
  have hdiv : 0 ≤ a / b := div_nonneg ha hb.le
  have hfl : (⌊a / b⌋ : K) ≤ a / b := Int.floor_le _
  have : b * (⌊a / b⌋ : K) ≤ b * (a / b) := by
    exact mul_le_mul_of_nonneg_left hfl hb.le
  rw [mul_div_cancel₀ a hb.ne'] at this
  simp only [rustRem, truncToZero, if_pos hdiv]
  linarith

theorem rustRem_nonpos {a b : K} (hb : 0 < b) (ha : a ≤ 0) : rustRem a b ≤ 0 := by
  rcases eq_or_lt_of_le ha with rfl | ha'
  · have : (0 : K) / b = 0 := zero_div b
    simp [rustRem, truncToZero, this]
  · have hdiv : a / b < 0 := div_neg_of_neg_of_pos ha' hb
    have hfl : a / b ≤ (⌈a / b⌉ : K) := Int.le_ceil _
    have : b * (a / b) ≤ b * (⌈a / b⌉ : K) := mul_le_mul_of_nonneg_left hfl hb.le
    rw [mul_div_cancel₀ a hb.ne'] at this
    simp only [rustRem, truncToZero, if_neg (not_le.mpr hdiv)]
    linarith

theorem rustRem_eq_fract {a b : K} (hb : 0 < b) (ha : 0 ≤ a) :
    rustRem a b = b * Int.fract (a / b) := by
  have hdiv : 0 ≤ a / b := div_nonneg ha hb.le
  simp only [rustRem, truncToZero, if_pos hdiv, Int.fract]
  rw [mul_sub, mul_div_cancel₀ a hb.ne']

theorem rustRem_add_self {a b : K} (hb : 0 < b) (ha : 0 ≤ a) :
    rustRem (a + b) b = rustRem a b := by
  have hab : 0 ≤ a + b := by linarith
  rw [rustRem_eq_fract hb ha, rustRem_eq_fract hb hab, add_div, div_self hb.ne',
    Int.fract_add_one]

/- ### The `f32` special values

The sampler theorems over a linear ordered field cover exactly the finite
`f32` inputs.  To settle what the program does on IEEE special values,
`FP32` extends the exact model with `±∞` and `NaN`: special values
propagate as IEEE 754 (and Rust) prescribe, finite arithmetic stays exact
(rounding is not modelled — every finite value the theorems below evaluate
is exactly representable in `f32`), and the two signed zeros are identified
(this only affects the signs of infinities produced by division by zero,
which nothing below exercises). -/

/-- An `f32` value: an exact finite value, an infinity, or `NaN`. -/
inductive FP32
  | fin (q : ℚ)
  | posInf
  | negInf
  | nan

/-- IEEE `f32` addition: `NaN` propagates, opposite infinities give `NaN`. -/
def FP32.add : FP32 → FP32 → FP32
  | nan, _ => nan
  | _, nan => nan
  | posInf, negInf => nan
  | negInf, posInf => nan
  | posInf, _ => posInf
  | _, posInf => posInf
  | negInf, _ => negInf
  | _, negInf => negInf
  | fin a, fin b => fin (a + b)

/-- IEEE `f32` subtraction. -/
def FP32.sub : FP32 → FP32 → FP32
  | nan, _ => nan
  | _, nan => nan
  | posInf, posInf => nan
  | negInf, negInf => nan
  | posInf, _ => posInf
  | _, posInf => negInf
  | negInf, _ => negInf
  | _, negInf => posInf
  | fin a, fin b => fin (a - b)

/-- IEEE `f32` multiplication: `NaN` propagates, `∞ * 0 = NaN`. -/
def FP32.mul : FP32 → FP32 → FP32
  | nan, _ => nan
  | _, nan => nan
  | posInf, posInf => posInf
  | posInf, negInf => negInf
  | negInf, posInf => negInf
  | negInf, negInf => posInf
  | posInf, fin b => if b = 0 then nan else if 0 < b then posInf else negInf
  | fin a, posInf => if a = 0 then nan else if 0 < a then posInf else negInf
  | negInf, fin b => if b = 0 then nan else if 0 < b then negInf else posInf
  | fin a, negInf => if a = 0 then nan else if 0 < a then negInf else posInf
  | fin a, fin b => fin (a * b)

/-- IEEE `f32` division: `NaN` propagates, `∞/∞ = NaN`, `x/0` is a signed
infinity (or `NaN` at `0/0`), `x/∞ = 0` (signed zeros identified). -/
def FP32.div : FP32 → FP32 → FP32
  | nan, _ => nan
  | _, nan => nan
  | posInf, posInf => nan
  | posInf, negInf => nan
  | negInf, posInf => nan
  | negInf, negInf => nan
  | posInf, fin b => if 0 ≤ b then posInf else negInf
  | negInf, fin b => if 0 ≤ b then negInf else posInf
  | fin _, posInf => fin 0
  | fin _, negInf => fin 0
  | fin a, fin b =>
      if b = 0 then (if a = 0 then nan else if 0 < a then posInf else negInf)
      else fin (a / b)

/-- Rust's `%` on `f32`: `NaN` for a `NaN` operand, an infinite dividend or
a zero divisor; the dividend for an infinite divisor; else the truncated
remainder. -/
def FP32.rem : FP32 → FP32 → FP32
  | nan, _ => nan
  | _, nan => nan
  | posInf, _ => nan
  | negInf, _ => nan
  | fin a, posInf => fin a
  | fin a, negInf => fin a
  | fin a, fin b => if b = 0 then nan else fin (rustRem a b)

/-- IEEE `f32` `<`: any comparison against `NaN` is false. -/
def FP32.blt : FP32 → FP32 → Bool
  | nan, _ => false
  | _, nan => false
  | negInf, negInf => false
  | negInf, _ => true
  | _, negInf => false
  | posInf, _ => false
  | fin _, posInf => true
  | fin a, fin b => decide (a < b)

/-- IEEE `f32` `<=`: any comparison against `NaN` is false. -/
def FP32.ble : FP32 → FP32 → Bool
  | nan, _ => false
  | _, nan => false
  | negInf, _ => true
  | _, negInf => false
  | _, posInf => true
  | posInf, _ => false
  | fin a, fin b => decide (a ≤ b)

/-- Rust's `f32::clamp(lo, hi)` for `lo ≤ hi`: `if self < min { min } else
if self > max { max } else { self }` — a `NaN` input stays `NaN`. -/
def FP32.clamp (x lo hi : FP32) : FP32 :=
  if FP32.blt x lo then lo else if FP32.blt hi x then hi else x

/-- `sample_percentages`, re-read over the `f32` model with special values:
the same four-stage pipeline as the source (`num_f32.recip()` is
`1.0 / num_f32`). -/
def sample_percentagesF32 (num_segments : ℕ) (delta_t speed : FP32) :
    List (FP32 × FP32) :=
  let num : FP32 := .fin (num_segments : ℚ)
  ((((List.range (num_segments + 1)).map
      (fun frac : ℕ => FP32.div (.fin (frac : ℚ)) num)).map
      (fun percent => FP32.add percent (FP32.mul delta_t speed))).map
      (fun percent => FP32.rem percent (FP32.add (.fin 1) (FP32.div (.fin 1) num)))).map
      (fun percent =>
        let segment_length := FP32.div (.fin 1) (FP32.mul num (.fin 2))
        (FP32.clamp (FP32.sub percent segment_length) (.fin 0) (.fin 1),
          FP32.clamp percent (.fin 0) (.fin 1)))

/- ### Claims about the sampler -/

/-- C1: for every segment count `n > 0`, time `t` and speed `s`,
`sample_percentages` produces, for each `i` in `0..=n` in order, exactly the
window the spec's steps describe: `phase = (i/n + t*s) mod (1 + 1/n)` with
the implementation's truncated float remainder, and the window
`[clamp (phase - 1/(2n)) 0 1, clamp phase 0 1]`; moreover that remainder
carries the sign of the dividend. -/
theorem sample_percentages_matches_spec (n : ℕ) (hn : 0 < n) (t s : K) :
    sample_percentages n t s = sample_spec n t s ∧
      ∀ a b : K, 0 < b → (0 ≤ a → 0 ≤ rustRem a b) ∧ (a ≤ 0 → rustRem a b ≤ 0) := by
  constructor
  · simp only [sample_percentages, sample_spec, List.map_map]
    apply List.map_congr_left
    intro i _
    simp only [Function.comp, one_div]
    rw [mul_comm (2 : K) (n : K)]
  · intro a b hb
    exact ⟨fun ha => rustRem_nonneg hb ha, fun ha => rustRem_nonpos hb ha⟩

theorem sample_percentages_matches_spec_holds :
    sample_percentages 2 (3 : ℚ) 5 = sample_spec 2 3 5 ∧
      ∀ a b : ℚ, 0 < b → (0 ≤ a → 0 ≤ rustRem a b) ∧ (a ≤ 0 → rustRem a b ≤ 0) :=
  @sample_percentages_matches_spec ℚ _ _ 2 (by norm_num) 3 5

/-- C2 amended: for every `n > 0` and every finite speed and elapsed time
(every value of the exact field model), the sampler yields exactly `n + 1`
windows, and every window `[w0, w1]` satisfies `w0 ≤ w1` with both ends in
`[0, 1]`. -/
theorem sample_percentages_window_count_and_bounds (n : ℕ) (hn : 0 < n) (t s : K) :
    (sample_percentages n t s).length = n + 1 ∧
      ∀ w ∈ sample_percentages n t s,
        w.1 ≤ w.2 ∧ 0 ≤ w.1 ∧ w.1 ≤ 1 ∧ 0 ≤ w.2 ∧ w.2 ≤ 1 := by
  refine ⟨sample_percentages_length n t s, ?_⟩
  intro w hw
  rw [sample_percentages_eq] at hw
  rcases List.mem_map.mp hw with ⟨p, _, rfl⟩
  have hseg : (0 : K) ≤ ((n : K) * 2)⁻¹ := by positivity
  have h01 : (0 : K) ≤ 1 := by norm_num
  refine ⟨?_, ?_, ?_, ?_, ?_⟩
  · exact rustClamp_mono h01 (by linarith)
  · exact rustClamp_nonneg _ _ h01
  · exact rustClamp_le_hi _ _ h01
  · exact rustClamp_nonneg _ _ h01
  · exact rustClamp_le_hi _ _ h01

theorem sample_percentages_window_count_and_bounds_holds :
    (sample_percentages 3 (7 : ℚ) (-2)).length = 3 + 1 ∧
      ∀ w ∈ sample_percentages 3 (7 : ℚ) (-2),
        w.1 ≤ w.2 ∧ 0 ≤ w.1 ∧ w.1 ≤ 1 ∧ 0 ≤ w.2 ∧ w.2 ≤ 1 :=
  @sample_percentages_window_count_and_bounds ℚ _ _ 3 (by norm_num) 7 (-2)

/-- C2 fails as stated for non-finite inputs: at `n = 1`, `elapsed_time = 0`
and `speed = NaN`, every stage of the pipeline propagates `NaN` (Rust's
`clamp` returns `NaN` for a `NaN` input), so both emitted windows are
`[NaN, NaN]` — and `NaN ≤ NaN`, `0 ≤ NaN`, `NaN ≤ 1` are all false in IEEE
comparison, refuting `w0 ≤ w1` and membership in `[0, 1]`. -/
theorem sample_percentages_nan_window :
    sample_percentagesF32 1 (FP32.fin 0) FP32.nan =
        [(FP32.nan, FP32.nan), (FP32.nan, FP32.nan)] ∧
      ¬ ∀ w ∈ sample_percentagesF32 1 (FP32.fin 0) FP32.nan,
          FP32.ble w.1 w.2 = true ∧ FP32.ble (FP32.fin 0) w.1 = true ∧
            FP32.ble w.1 (FP32.fin 1) = true ∧ FP32.ble (FP32.fin 0) w.2 = true ∧
            FP32.ble w.2 (FP32.fin 1) = true := by
  have hlist : sample_percentagesF32 1 (FP32.fin 0) FP32.nan =
      [(FP32.nan, FP32.nan), (FP32.nan, FP32.nan)] := by
    norm_num [sample_percentagesF32, FP32.div, FP32.mul, FP32.add, FP32.rem,
      FP32.sub, FP32.clamp, FP32.blt, List.range_succ]
  refine ⟨hlist, ?_⟩
  intro h
  have := (h (FP32.nan, FP32.nan) (by rw [hlist]; exact List.mem_cons_self _ _)).1
  simp [FP32.ble] at this

/-- C6 fails as stated: with `n = 1`, `t = 1/2`, `s = -1` the offset of the
first window is negative, the truncated remainder keeps its sign, and the
window list differs from the one a full period `(1 + 1/n)/s` later
(`[(0,0), (0,1/2)]` against `[(1,1), (0,1/2)]`). -/
theorem sample_percentages_not_periodic :
    ¬ sample_percentages 1 ((1 : ℚ) / 2) (-1) =
        sample_percentages 1 (1 / 2 + (1 + 1 / 1) / (-1)) (-1) := by
  have hc : ⌈(-(1 / 4) : ℚ)⌉ = 0 := by
    rw [Int.ceil_eq_zero_iff]
    constructor <;> norm_num
  have hf1 : ⌊(1 / 4 : ℚ)⌋ = 0 := by
    rw [Int.floor_eq_zero_iff]
    constructor <;> norm_num
  have hf2 : ⌊(3 / 4 : ℚ)⌋ = 0 := by
    rw [Int.floor_eq_zero_iff]
    constructor <;> norm_num
  have hf3 : ⌊(5 / 4 : ℚ)⌋ = 1 := by
    rw [Int.floor_eq_iff] <;> norm_num
  norm_num [sample_percentages, rustRem, rustClamp, truncToZero, List.range_succ,
    hc, hf1, hf2, hf3]

/-- C6 amended: the periodicity `sample(n, t, s) = sample(n, t + (1+1/n)/s, s)`
holds for `s ≠ 0` whenever `0 ≤ t * s`, i.e. whenever no offset is negative
(the truncated remainder is only translation-periodic on nonnegative input). -/
theorem sample_percentages_periodic_of_nonneg (n : ℕ) (hn : 0 < n) (t s : K)
    (hs : s ≠ 0) (hts : 0 ≤ t * s) :
    sample_percentages n t s = sample_percentages n (t + (1 + 1 / (n : K)) / s) s := by
  rw [sample_percentages_eq, sample_percentages_eq, samplePhases_eq, samplePhases_eq,
    List.map_map, List.map_map]
  apply List.map_congr_left
  intro i _
  have hm : (0 : K) < 1 + ((n : K))⁻¹ := by positivity
  have hx : (0 : K) ≤ (i : K) / (n : K) + t * s := by positivity
  have harg : (i : K) / (n : K) + (t + (1 + 1 / (n : K)) / s) * s =
      ((i : K) / (n : K) + t * s) + (1 + ((n : K))⁻¹) := by
    rw [add_mul, div_mul_cancel₀ _ hs, one_div]
    ring
  simp only [Function.comp]
  rw [harg, rustRem_add_self hm hx]

theorem sample_percentages_periodic_of_nonneg_holds :
    sample_percentages 1 (1 : ℚ) 1 = sample_percentages 1 (1 + (1 + 1 / 1) / 1) 1 :=
  @sample_percentages_periodic_of_nonneg ℚ _ _ 1 (by norm_num) 1 1 (by norm_num) (by norm_num)

/- ### Vectors and quaternions (the `bevy_math`/`glam` value types) -/

/-- A 2D vector (`glam::Vec2`) over `K`. -/
structure Vec2 (K : Type) where
  x : K
  y : K

/-- A 3D vector (`glam::Vec3`) over `K`. -/
structure Vec3 (K : Type) where
  x : K
  y : K
  z : K

instance : Zero (Vec2 K) := ⟨⟨0, 0⟩⟩

instance : Add (Vec2 K) := ⟨fun a b => ⟨a.x + b.x, a.y + b.y⟩⟩

instance : Sub (Vec2 K) := ⟨fun a b => ⟨a.x - b.x, a.y - b.y⟩⟩

instance : SMul K (Vec2 K) := ⟨fun c v => ⟨c * v.x, c * v.y⟩⟩

instance : Zero (Vec3 K) := ⟨⟨0, 0, 0⟩⟩

instance : Add (Vec3 K) := ⟨fun a b => ⟨a.x + b.x, a.y + b.y, a.z + b.z⟩⟩

instance : Sub (Vec3 K) := ⟨fun a b => ⟨a.x - b.x, a.y - b.y, a.z - b.z⟩⟩

instance : SMul K (Vec3 K) := ⟨fun c v => ⟨c * v.x, c * v.y, c * v.z⟩⟩

@[simp] theorem Vec2.zero_eq : (0 : Vec2 K) = ⟨0, 0⟩ := rfl

@[simp] theorem Vec2.add_eq (a b : Vec2 K) : a + b = ⟨a.x + b.x, a.y + b.y⟩ := rfl

@[simp] theorem Vec2.sub_eq (a b : Vec2 K) : a - b = ⟨a.x - b.x, a.y - b.y⟩ := rfl

@[simp] theorem Vec2.smul_eq (c : K) (v : Vec2 K) : c • v = ⟨c * v.x, c * v.y⟩ := rfl

@[simp] theorem Vec3.zero_def : (0 : Vec3 K) = ⟨0, 0, 0⟩ := rfl

@[simp] theorem Vec3.add_def (a b : Vec3 K) :
    a + b = ⟨a.x + b.x, a.y + b.y, a.z + b.z⟩ := rfl

@[simp] theorem Vec3.sub_def (a b : Vec3 K) :
    a - b = ⟨a.x - b.x, a.y - b.y, a.z - b.z⟩ := rfl

@[simp] theorem Vec3.smul_def (c : K) (v : Vec3 K) :
    c • v = ⟨c * v.x, c * v.y, c * v.z⟩ := rfl

/-- `Vec3::dot`. -/
def Vec3.dot (a b : Vec3 K) : K := a.x * b.x + a.y * b.y + a.z * b.z

/-- `Vec3::cross`. -/
def Vec3.cross (a b : Vec3 K) : Vec3 K :=
  ⟨a.y * b.z - a.z * b.y, a.z * b.x - a.x * b.z, a.x * b.y - a.y * b.x⟩

/-- The external transcendental primitives this core calls into
(`bevy_math`/`glam` floating-point functions), passed explicitly so the
embedding stays a pure field computation; theorems instantiate them with
`Real.sqrt`, `Real.arccos`, `Real.sin`, `Real.cos` and `Real.pi`. -/
structure RealOps (K : Type) where
  sqrt : K → K
  arccos : K → K
  sin : K → K
  cos : K → K
  pi : K

/-- `Vec3::normalize_or_zero`: the input scaled to length one, or the zero
vector when the input has zero length (never an error). -/
def normalize_or_zero (sqrt : K → K) (v : Vec3 K) : Vec3 K :=
  if v.dot v = 0 then 0 else (sqrt (v.dot v))⁻¹ • v

/-- `Vec3::distance`: the length of `a - b`. -/
def Vec3.distance (sqrt : K → K) (a b : Vec3 K) : K := sqrt ((a - b).dot (a - b))

/-- A quaternion (`glam::Quat`) over `K`. -/
structure Quat (K : Type) where
  x : K
  y : K
  z : K
  w : K

/-- `Quat::from_axis_angle`: `(axis * sin (angle/2), cos (angle/2))`. -/
def Quat.from_axis_angle (ops : RealOps K) (axis : Vec3 K) (angle : K) : Quat K :=
  ⟨axis.x * ops.sin (angle / 2), axis.y * ops.sin (angle / 2),
    axis.z * ops.sin (angle / 2), ops.cos (angle / 2)⟩

/-- `Quat::inverse` (the conjugate; `glam` assumes a unit quaternion). -/
def Quat.inverse (q : Quat K) : Quat K := ⟨-q.x, -q.y, -q.z, q.w⟩

/-- `Quat::mul_vec3` (`glam`'s sandwich-product formula
`rhs*(w² - b·b) + b*(rhs·b * 2) + (b × rhs)*(w * 2)` with `b` the vector
part). -/
def Quat.mul_vec3 (q : Quat K) (rhs : Vec3 K) : Vec3 K :=
  let b : Vec3 K := ⟨q.x, q.y, q.z⟩
  let b2 := b.dot b
  (q.w * q.w - b2) • rhs + (rhs.dot b * 2) • b + (q.w * 2) • (b.cross rhs)

/-- Modelled from the spec: `Quat::from_rotation_arc(a, b).to_axis_angle()`
(`bevy_math`/`glam`, not part of the staged sources) — "compute the minimal
rotation that maps `from_axis` onto `to_axis`; decompose it into a rotation
axis `up` and an unsigned angle `angle` in `[0, π]`", with the degenerate
fallback "angle well-defined as 0": when the cross product vanishes the axis
is a fixed reference axis and the angle is `π` for opposite directions and
`0` otherwise (parallel or zero-length input); else the axis is the
normalized cross product and the angle is `arccos` of the dot product. -/
def minRotAxisAngle (ops : RealOps K) (a b : Vec3 K) : Vec3 K × K :=
  if (a.cross b).dot (a.cross b) = 0 then
    (⟨1, 0, 0⟩, if a.dot b < 0 then ops.pi else 0)
  else
    ((ops.sqrt ((a.cross b).dot (a.cross b)))⁻¹ • a.cross b, ops.arccos (a.dot b))

/-- Modelled from the spec: `Quat::from_rotation_arc(a, b)`
(`bevy_math`/`glam`, not part of the staged sources) — "the minimal rotation
mapping a fixed reference axis onto `up`", realized from its own axis-angle
decomposition. -/
def from_rotation_arc (ops : RealOps K) (a b : Vec3 K) : Quat K :=
  let ua := minRotAxisAngle ops a b
  Quat.from_axis_angle ops ua.1 ua.2

/-- `from_to_param_converter` from `bevy_gizmos/src/arcs/helper.rs`: turns a
`center`/`from`/`to` ray description into
`(start_vertex, rotation, angle, radius)`. -/
def from_to_param_converter (ops : RealOps K) (center from_ to_ : Vec3 K)
    (angle_fn : K → K) : Vec3 K × Quat K × K × K :=
  let from_axis := normalize_or_zero ops.sqrt (from_ - center)
  let to_axis := normalize_or_zero ops.sqrt (to_ - center)
  let ua := minRotAxisAngle ops from_axis to_axis
  let angle := angle_fn ua.2
  let radius := Vec3.distance ops.sqrt center from_
  let rotation := from_rotation_arc ops ⟨0, 1, 0⟩ ua.1
  let start_vertex := Quat.mul_vec3 rotation.inverse from_axis
  (start_vertex, rotation, angle, radius)

/-- `angle_fn_long` (local function of `AnimatedGizmos::animated_arc_long`),
with the `TAU` constant passed in: the complementary ("long") sweep. -/
def angle_fn_long (tau angle : K) : K :=
  if angle > 0 then tau - angle else if angle < 0 then -tau - angle else 0

/- ### The five animated builders and their finalization (`Drop::drop`)

Each builder's scope-exit finalization is embedded as a pure function from
the builder state, the draw surface's `enabled` flag and the clock's
`elapsed_seconds` to the list of draw calls it submits to the underlying
`Gizmos` surface. -/

/-- One `Gizmos::line` / `line_2d` call submitted by a line builder. -/
structure LineCall (P : Type) (C : Type) where
  start : P
  stop : P
  color : C

/-- One `Gizmos::short_arc_3d_between` call submitted by the 3D arc builder
(with the resolution override applied to the returned builder, if set). -/
structure Arc3dCall (K : Type) (C : Type) where
  center : Vec3 K
  start : Vec3 K
  stop : Vec3 K
  color : C
  resolution : Option ℕ

/-- One `Gizmos::arc_2d` call submitted by the 2D arc builder (with the
resolution override applied to the returned builder, if set). -/
structure Arc2dCall (K : Type) (C : Type) where
  position : Vec2 K
  direction_angle : K
  arc_angle : K
  radius : K
  color : C
  resolution : Option ℕ

/-- The state of `AnimatedLineBuilder` (3D). `end` is a Lean keyword, so the
source's `end` field is called `stop`. -/
structure AnimatedLineBuilder (K : Type) (C : Type) where
  start : Vec3 K
  stop : Vec3 K
  color : C
  segments : ℕ
  speed : K

/-- `AnimatedGizmos::animated_line`: builder with defaults `segments = 5`,
`speed = 0.1`. -/
def animated_line (start stop : Vec3 K) (color : C) : AnimatedLineBuilder K C :=
  ⟨start, stop, color, 5, 1 / 10⟩

/-- The chained `segments` setter of `AnimatedLineBuilder`. -/
def AnimatedLineBuilder.set_segments (b : AnimatedLineBuilder K C) (segments : ℕ) :
    AnimatedLineBuilder K C :=
  { b with segments := segments }

/-- The chained `speed` setter of `AnimatedLineBuilder`. -/
def AnimatedLineBuilder.set_speed (b : AnimatedLineBuilder K C) (factor : K) :
    AnimatedLineBuilder K C :=
  { b with speed := factor }

/-- `Drop for AnimatedLineBuilder`: no-op when the surface is disabled or
`segments == 0`; otherwise each sampled window is mapped through
`start + percent * (end - start)` and submitted as one line. -/
def AnimatedLineBuilder.drop (b : AnimatedLineBuilder K C) (enabled : Bool)
    (elapsed_seconds : K) : List (LineCall (Vec3 K) C) :=
  if ¬ enabled then []
  else if b.segments = 0 then []
  else
    let diff := b.stop - b.start
    (sample_percentages b.segments elapsed_seconds b.speed).map
      (fun w => ⟨b.start + w.1 • diff, b.start + w.2 • diff, b.color⟩)

/-- The state of `AnimatedLine2dBuilder`. -/
structure AnimatedLine2dBuilder (K : Type) (C : Type) where
  start : Vec2 K
  stop : Vec2 K
  color : C
  segments : ℕ
  speed : K

/-- `AnimatedGizmos::animated_line_2d`: builder with defaults `segments = 5`,
`speed = 0.1`. -/
def animated_line_2d (start stop : Vec2 K) (color : C) : AnimatedLine2dBuilder K C :=
  ⟨start, stop, color, 5, 1 / 10⟩

/-- The chained `segments` setter of `AnimatedLine2dBuilder`. -/
def AnimatedLine2dBuilder.set_segments (b : AnimatedLine2dBuilder K C) (segments : ℕ) :
    AnimatedLine2dBuilder K C :=
  { b with segments := segments }

/-- The chained `speed` setter of `AnimatedLine2dBuilder`. -/
def AnimatedLine2dBuilder.set_speed (b : AnimatedLine2dBuilder K C) (factor : K) :
    AnimatedLine2dBuilder K C :=
  { b with speed := factor }

/-- `Drop for AnimatedLine2dBuilder`: as the 3D line, in 2D. -/
def AnimatedLine2dBuilder.drop (b : AnimatedLine2dBuilder K C) (enabled : Bool)
    (elapsed_seconds : K) : List (LineCall (Vec2 K) C) :=
  if ¬ enabled then []
  else if b.segments = 0 then []
  else
    let diff := b.stop - b.start
    (sample_percentages b.segments elapsed_seconds b.speed).map
      (fun w => ⟨b.start + w.1 • diff, b.start + w.2 • diff, b.color⟩)

/-- The state of `AnimatedArcBuilder` (3D ray-form arc, short or long,
selected by the stored `angle_fn`). -/
structure AnimatedArcBuilder (K : Type) (C : Type) where
  from_ : Vec3 K
  to_ : Vec3 K
  center : Vec3 K
  color : C
  angle_fn : K → K
  segments : ℕ
  speed : K
  resolution : Option ℕ

/-- `AnimatedGizmos::animated_arc_long`: builder with `angle_fn_long` and
defaults `segments = 5`, `speed = 0.1`, `resolution = None` (`tau` stands for
the source's `TAU` constant). -/
def animated_arc_long (tau : K) (from_ to_ center : Vec3 K) (color : C) :
    AnimatedArcBuilder K C :=
  ⟨from_, to_, center, color, angle_fn_long tau, 5, 1 / 10, none⟩

/-- `AnimatedGizmos::animated_arc_short`: builder with the identity angle
function and defaults `segments = 5`, `speed = 0.1`, `resolution = None`. -/
def animated_arc_short (from_ to_ center : Vec3 K) (color : C) :
    AnimatedArcBuilder K C :=
  ⟨from_, to_, center, color, id, 5, 1 / 10, none⟩

/-- The chained `segments` setter of `AnimatedArcBuilder`. -/
def AnimatedArcBuilder.set_segments (b : AnimatedArcBuilder K C) (segments : ℕ) :
    AnimatedArcBuilder K C :=
  { b with segments := segments }

/-- The chained `speed` setter of `AnimatedArcBuilder`. -/
def AnimatedArcBuilder.set_speed (b : AnimatedArcBuilder K C) (factor : K) :
    AnimatedArcBuilder K C :=
  { b with speed := factor }

/-- The chained `resolution` setter of `AnimatedArcBuilder`. -/
def AnimatedArcBuilder.set_resolution (b : AnimatedArcBuilder K C) (resolution : ℕ) :
    AnimatedArcBuilder K C :=
  { b with resolution := some resolution }

/-- `Drop for AnimatedArcBuilder`: runs the converter once, clamps the angle
to `[-TAU, TAU]`, and maps each sampled percent through
`isometry * (from_axis_angle(Y, percent * angle) * start_vertex * radius)`
with `isometry = Isometry3d::new(center, rotation)`. -/
def AnimatedArcBuilder.drop (ops : RealOps K) (b : AnimatedArcBuilder K C)
    (enabled : Bool) (elapsed_seconds : K) : List (Arc3dCall K C) :=
  if ¬ enabled then []
  else if b.segments = 0 then []
  else
    let p := from_to_param_converter ops b.center b.from_ b.to_ b.angle_fn
    let angle := rustClamp p.2.2.1 (-(2 * ops.pi)) (2 * ops.pi)
    let point := fun percent : K =>
      Quat.mul_vec3 p.2.1
        (p.2.2.2 • Quat.mul_vec3 (Quat.from_axis_angle ops ⟨0, 1, 0⟩ (percent * angle)) p.1)
        + b.center
    (sample_percentages b.segments elapsed_seconds b.speed).map
      (fun w => ⟨b.center, point w.1, point w.2, b.color, b.resolution⟩)

/-- The state of `AnimatedArc2dBuilder` (2D polar-form arc). -/
structure AnimatedArc2dBuilder (K : Type) (C : Type) where
  position : Vec2 K
  direction_angle : K
  arc_angle : K
  radius : K
  color : C
  segments : ℕ
  speed : K
  resolution : Option ℕ

/-- `AnimatedGizmos::animated_arc_2d`: builder with defaults `segments = 5`,
`speed = 0.1`, `resolution = None`. -/
def animated_arc_2d (position : Vec2 K) (direction_angle arc_angle radius : K)
    (color : C) : AnimatedArc2dBuilder K C :=
  ⟨position, direction_angle, arc_angle, radius, color, 5, 1 / 10, none⟩

/-- The chained `segments` setter of `AnimatedArc2dBuilder`. -/
def AnimatedArc2dBuilder.set_segments (b : AnimatedArc2dBuilder K C) (segments : ℕ) :
    AnimatedArc2dBuilder K C :=
  { b with segments := segments }

/-- The chained `speed` setter of `AnimatedArc2dBuilder`. -/
def AnimatedArc2dBuilder.set_speed (b : AnimatedArc2dBuilder K C) (factor : K) :
    AnimatedArc2dBuilder K C :=
  { b with speed := factor }

/-- The chained `resolution` setter of `AnimatedArc2dBuilder`. -/
def AnimatedArc2dBuilder.set_resolution (b : AnimatedArc2dBuilder K C) (resolution : ℕ) :
    AnimatedArc2dBuilder K C :=
  { b with resolution := some resolution }

/-- `Drop for AnimatedArc2dBuilder`: each window `[start, end]` becomes one
polar sub-arc with `length = |start - end|`,
`direction_angle + start * arc_angle + length` and `length * arc_angle`. -/
def AnimatedArc2dBuilder.drop (b : AnimatedArc2dBuilder K C) (enabled : Bool)
    (elapsed_seconds : K) : List (Arc2dCall K C) :=
  if ¬ enabled then []
  else if b.segments = 0 then []
  else
    (sample_percentages b.segments elapsed_seconds b.speed).map
      (fun w =>
        let length := |w.1 - w.2|
        ⟨b.position, b.direction_angle + w.1 * b.arc_angle + length,
          length * b.arc_angle, b.radius, b.color, b.resolution⟩)

/- ### Claims about the builders -/

/-- C7: for every builder kind (3D line, 2D line, 3D ray arc — short or long,
which differ only in the stored `angle_fn` — and 2D polar arc), a builder
whose `segments` is `0` finalizes to zero draw calls, whatever the other
parameters, the elapsed time and the surface's enabled flag are. -/
theorem segments_zero_emits_nothing (ops : RealOps K) (enabled : Bool) (t : K) :
    (∀ b : AnimatedLineBuilder K C, b.segments = 0 → b.drop enabled t = []) ∧
      (∀ b : AnimatedLine2dBuilder K C, b.segments = 0 → b.drop enabled t = []) ∧
      (∀ b : AnimatedArcBuilder K C, b.segments = 0 → b.drop ops enabled t = []) ∧
      (∀ b : AnimatedArc2dBuilder K C, b.segments = 0 → b.drop enabled t = []) := by
  refine ⟨fun b hb => ?_, fun b hb => ?_, fun b hb => ?_, fun b hb => ?_⟩ <;>
    cases enabled <;>
      simp [AnimatedLineBuilder.drop, AnimatedLine2dBuilder.drop,
        AnimatedArcBuilder.drop, AnimatedArc2dBuilder.drop, hb]

/-- C10: all five entry points build their builder with `segments = 5` and
`speed = 0.1` (and `resolution` unset for the arc builders), and finalizing
any of them untouched on an enabled surface emits exactly `5 + 1 = 6`
sub-segments, animated at the default speed `0.1`. -/
theorem default_builders_emit_six (ops : RealOps K) (t tau : K)
    (s3 e3 f3 t3 cen : Vec3 K) (s2 e2 pos : Vec2 K) (dang aang rad : K) (c : C) :
    ((animated_line s3 e3 c).segments = 5 ∧ (animated_line s3 e3 c).speed = 1 / 10 ∧
      ((animated_line s3 e3 c).drop true t).length = 6) ∧
    ((animated_line_2d s2 e2 c).segments = 5 ∧
      (animated_line_2d s2 e2 c).speed = 1 / 10 ∧
      ((animated_line_2d s2 e2 c).drop true t).length = 6) ∧
    ((animated_arc_short f3 t3 cen c).segments = 5 ∧
      (animated_arc_short f3 t3 cen c).speed = 1 / 10 ∧
      (animated_arc_short f3 t3 cen c).resolution = none ∧
      ((animated_arc_short f3 t3 cen c).drop ops true t).length = 6) ∧
    ((animated_arc_long tau f3 t3 cen c).segments = 5 ∧
      (animated_arc_long tau f3 t3 cen c).speed = 1 / 10 ∧
      (animated_arc_long tau f3 t3 cen c).resolution = none ∧
      ((animated_arc_long tau f3 t3 cen c).drop ops true t).length = 6) ∧
    ((animated_arc_2d pos dang aang rad c).segments = 5 ∧
      (animated_arc_2d pos dang aang rad c).speed = 1 / 10 ∧
      (animated_arc_2d pos dang aang rad c).resolution = none ∧
      ((animated_arc_2d pos dang aang rad c).drop true t).length = 6) := by
  refine ⟨⟨rfl, rfl, ?_⟩, ⟨rfl, rfl, ?_⟩, ⟨rfl, rfl, rfl, ?_⟩,
    ⟨rfl, rfl, rfl, ?_⟩, ⟨rfl, rfl, rfl, ?_⟩⟩ <;>
    simp [AnimatedLineBuilder.drop, AnimatedLine2dBuilder.drop,
      AnimatedArcBuilder.drop, AnimatedArc2dBuilder.drop,
      animated_line, animated_line_2d, animated_arc_short, animated_arc_long,
      animated_arc_2d, sample_percentages_length]

/-- C8: `animated_line((0,0,0), (10,0,0)).segments(1).speed(0)` finalized at
`elapsed_time = 0` on an enabled surface emits exactly two sub-segments: the
window `[0, 0]` (the degenerate point at the origin) and the window
`[0.5, 1]` (the back half of the line, through
`point(w) = start + w * (end - start)`). -/
theorem animated_line_scenario :
    (((animated_line ⟨0, 0, 0⟩ ⟨10, 0, 0⟩ () : AnimatedLineBuilder ℚ Unit).set_segments
          1).set_speed 0).drop true 0 =
        [⟨⟨0, 0, 0⟩, ⟨0, 0, 0⟩, ()⟩, ⟨⟨5, 0, 0⟩, ⟨10, 0, 0⟩, ()⟩] ∧
      sample_percentages 1 (0 : ℚ) 0 = [(0, 0), (1 / 2, 1)] := by
  have hf0 : ⌊(0 : ℚ)⌋ = 0 := by norm_num
  have hf1 : ⌊(1 / 2 : ℚ)⌋ = 0 := by
    rw [Int.floor_eq_zero_iff]
    constructor <;> norm_num
  have hs : sample_percentages 1 (0 : ℚ) 0 = [(0, 0), (1 / 2, 1)] := by
    norm_num [sample_percentages, rustRem, rustClamp, truncToZero, List.range_succ,
      hf0, hf1]
  refine ⟨?_, hs⟩
  norm_num [AnimatedLineBuilder.drop, AnimatedLineBuilder.set_segments,
    AnimatedLineBuilder.set_speed, animated_line, hs]

/- ### Geometry lemmas for the converter -/

theorem Vec3.dot_self_nonneg (v : Vec3 K) : 0 ≤ v.dot v := by
  have hx := mul_self_nonneg v.x
  have hy := mul_self_nonneg v.y
  have hz := mul_self_nonneg v.z
  unfold Vec3.dot
  linarith

theorem Vec3.dot_smul_smul (r s : K) (a b : Vec3 K) :
    (r • a).dot (s • b) = r * s * a.dot b := by
  simp [Vec3.dot]
  ring

theorem Vec3.cross_smul_smul (r s : K) (a b : Vec3 K) :
    (r • a).cross (s • b) = (r * s) • (a.cross b) := by
  simp [Vec3.cross, Vec3.mk.injEq]
  refine ⟨by ring, by ring, by ring⟩

theorem Vec3.cross_dot_self (a b : Vec3 K) :
    (a.cross b).dot (a.cross b) = a.dot a * b.dot b - a.dot b * a.dot b := by
  simp [Vec3.cross, Vec3.dot]
  ring

theorem Vec3.dot_zero_right (v : Vec3 K) : v.dot 0 = 0 := by
  simp [Vec3.dot]

theorem Vec3.cross_zero_right (v : Vec3 K) : v.cross 0 = 0 := by
  simp [Vec3.cross]

theorem Vec3.smul_zero_vec (c : K) : c • (0 : Vec3 K) = 0 := by
  simp

theorem Quat.mul_vec3_zero (q : Quat K) : q.mul_vec3 ⟨0, 0, 0⟩ = ⟨0, 0, 0⟩ := by
  simp [Quat.mul_vec3, Vec3.dot, Vec3.cross]

/-- `minRotAxisAngle` on two vectors with vanishing dot product but
non-vanishing cross product decomposes to the angle `arccos 0 = π / 2`. -/
theorem minRotAxisAngle_of_perp (a b : Vec3 ℝ) (hdot : a.dot b = 0)
    (hcross : (a.cross b).dot (a.cross b) ≠ 0) :
    (minRotAxisAngle ⟨Real.sqrt, Real.arccos, Real.sin, Real.cos, Real.pi⟩
      a b).2 = Real.pi / 2 := by
  unfold minRotAxisAngle
  rw [if_neg hcross]
  show Real.arccos (a.dot b) = Real.pi / 2
  rw [hdot, Real.arccos_zero]

/-- The converter's internal decomposition angle, for two rays that are
nonzero and orthogonal, is `arccos 0 = π/2`; the returned angle is the
adjusted `fn (π/2)`. -/
theorem from_to_param_converter_angle_of_perp (center from_ to_ : Vec3 ℝ)
    (hf : (from_ - center).dot (from_ - center) ≠ 0)
    (ht : (to_ - center).dot (to_ - center) ≠ 0)
    (hperp : (from_ - center).dot (to_ - center) = 0) (fn : ℝ → ℝ) :
    (from_to_param_converter
        ⟨Real.sqrt, Real.arccos, Real.sin, Real.cos, Real.pi⟩ center from_ to_
        fn).2.2.1 = fn (Real.pi / 2) := by
  have hu0 : 0 < (from_ - center).dot (from_ - center) :=
    lt_of_le_of_ne (Vec3.dot_self_nonneg _) (Ne.symm hf)
  have hw0 : 0 < (to_ - center).dot (to_ - center) :=
    lt_of_le_of_ne (Vec3.dot_self_nonneg _) (Ne.symm ht)
  have hinvu : (Real.sqrt ((from_ - center).dot (from_ - center)))⁻¹ ≠ 0 :=
    inv_ne_zero (ne_of_gt (Real.sqrt_pos.mpr hu0))
  have hinvw : (Real.sqrt ((to_ - center).dot (to_ - center)))⁻¹ ≠ 0 :=
    inv_ne_zero (ne_of_gt (Real.sqrt_pos.mpr hw0))
  have hfa : normalize_or_zero Real.sqrt (from_ - center) =
      (Real.sqrt ((from_ - center).dot (from_ - center)))⁻¹ • (from_ - center) := by
    unfold normalize_or_zero
    rw [if_neg hf]
  have hta : normalize_or_zero Real.sqrt (to_ - center) =
      (Real.sqrt ((to_ - center).dot (to_ - center)))⁻¹ • (to_ - center) := by
    unfold normalize_or_zero
    rw [if_neg ht]
  have hconv : (from_to_param_converter
      ⟨Real.sqrt, Real.arccos, Real.sin, Real.cos, Real.pi⟩ center from_ to_
      fn).2.2.1 =
      fn ((minRotAxisAngle ⟨Real.sqrt, Real.arccos, Real.sin, Real.cos, Real.pi⟩
        (normalize_or_zero Real.sqrt (from_ - center))
        (normalize_or_zero Real.sqrt (to_ - center))).2) := rfl
  rw [hconv, hfa, hta]
  have hdot : ((Real.sqrt ((from_ - center).dot (from_ - center)))⁻¹ • (from_ - center)).dot
      ((Real.sqrt ((to_ - center).dot (to_ - center)))⁻¹ • (to_ - center)) = 0 := by
    rw [Vec3.dot_smul_smul, hperp, mul_zero]
  have hcross : ((((Real.sqrt ((from_ - center).dot (from_ - center)))⁻¹ •
        (from_ - center)).cross
        ((Real.sqrt ((to_ - center).dot (to_ - center)))⁻¹ • (to_ - center))).dot
        (((Real.sqrt ((from_ - center).dot (from_ - center)))⁻¹ •
          (from_ - center)).cross
          ((Real.sqrt ((to_ - center).dot (to_ - center)))⁻¹ • (to_ - center)))) ≠ 0 := by
    rw [Vec3.cross_smul_smul, Vec3.dot_smul_smul, Vec3.cross_dot_self, hperp]
    refine mul_ne_zero
      (mul_ne_zero (mul_ne_zero hinvu hinvw) (mul_ne_zero hinvu hinvw)) ?_
    have := mul_pos hu0 hw0
    intro h
    nlinarith
  rw [minRotAxisAngle_of_perp _ _ hdot hcross]

/-- C4: with `from` and `to` whose rays from `center` are orthogonal and
nonzero, the converter with the identity policy ("short") returns an angle
of absolute value `π/2`, and with the "long" policy `angle_fn_long` an angle
of absolute value `3π/2`; in general `angle_fn_long` maps a positive angle
`a` to `2π - a`, a negative angle to `-2π - a`, and zero to zero. -/
theorem converter_short_long_policies (center from_ to_ : Vec3 ℝ)
    (hf : (from_ - center).dot (from_ - center) ≠ 0)
    (ht : (to_ - center).dot (to_ - center) ≠ 0)
    (hperp : (from_ - center).dot (to_ - center) = 0) :
    |(from_to_param_converter
        ⟨Real.sqrt, Real.arccos, Real.sin, Real.cos, Real.pi⟩ center from_ to_
        id).2.2.1| = Real.pi / 2 ∧
      |(from_to_param_converter
          ⟨Real.sqrt, Real.arccos, Real.sin, Real.cos, Real.pi⟩ center from_ to_
          (angle_fn_long (2 * Real.pi))).2.2.1| = 3 * Real.pi / 2 ∧
      ∀ a : ℝ, (0 < a → angle_fn_long (2 * Real.pi) a = 2 * Real.pi - a) ∧
        (a < 0 → angle_fn_long (2 * Real.pi) a = -(2 * Real.pi) - a) ∧
        angle_fn_long (2 * Real.pi) (0 : ℝ) = 0 := by
  have hpi := Real.pi_pos
  refine ⟨?_, ?_, ?_⟩
  · rw [from_to_param_converter_angle_of_perp center from_ to_ hf ht hperp id]
    simp only [id]
    rw [abs_of_nonneg (by linarith)]
  · rw [from_to_param_converter_angle_of_perp center from_ to_ hf ht hperp
      (angle_fn_long (2 * Real.pi))]
    unfold angle_fn_long
    rw [if_pos (by linarith : Real.pi / 2 > 0)]
    rw [abs_of_nonneg (by linarith)]
    ring
  · intro a
    unfold angle_fn_long
    refine ⟨fun ha => ?_, fun ha => ?_, ?_⟩
    · rw [if_pos ha]
    · rw [if_neg (by linarith), if_pos ha]
    · norm_num

theorem converter_short_long_policies_holds :
    |(from_to_param_converter
        ⟨Real.sqrt, Real.arccos, Real.sin, Real.cos, Real.pi⟩
        (⟨0, 0, 0⟩ : Vec3 ℝ) ⟨1, 0, 0⟩ ⟨0, 1, 0⟩ id).2.2.1| = Real.pi / 2 ∧
      |(from_to_param_converter
          ⟨Real.sqrt, Real.arccos, Real.sin, Real.cos, Real.pi⟩
          (⟨0, 0, 0⟩ : Vec3 ℝ) ⟨1, 0, 0⟩ ⟨0, 1, 0⟩
          (angle_fn_long (2 * Real.pi))).2.2.1| = 3 * Real.pi / 2 ∧
      ∀ a : ℝ, (0 < a → angle_fn_long (2 * Real.pi) a = 2 * Real.pi - a) ∧
        (a < 0 → angle_fn_long (2 * Real.pi) a = -(2 * Real.pi) - a) ∧
        angle_fn_long (2 * Real.pi) (0 : ℝ) = 0 :=
  converter_short_long_policies ⟨0, 0, 0⟩ ⟨1, 0, 0⟩ ⟨0, 1, 0⟩
    (by norm_num [Vec3.dot]) (by norm_num [Vec3.dot]) (by norm_num [Vec3.dot])

/-- C5: the converter is a total function — on every input, including the
degenerate rays `from == center` or `to == center` (whose axis normalizes to
the zero vector), it returns a result, and that result's radius is always
`distance(center, from)`; on the spec's degenerate input
`(center = 0, from = 0, to = (1,0,0))` the radius is `0`, and the 3D arc
builder fed with that input emits only zero-extent arcs (every submitted
call has `start = stop = center`). -/
theorem converter_total_and_degenerate :
    (∀ (ops : RealOps ℝ) (center from_ to_ : Vec3 ℝ) (fn : ℝ → ℝ),
        (from_to_param_converter ops center from_ to_ fn).2.2.2 =
          Vec3.distance ops.sqrt center from_) ∧
      (from_to_param_converter
          ⟨Real.sqrt, Real.arccos, Real.sin, Real.cos, Real.pi⟩ (0 : Vec3 ℝ) 0
          ⟨1, 0, 0⟩ id).2.2.2 = 0 ∧
      ∀ (C : Type) (c : C) (fn : ℝ → ℝ) (segs : ℕ) (sp t : ℝ) (res : Option ℕ)
        (enabled : Bool),
        ∀ call ∈ (AnimatedArcBuilder.mk (0 : Vec3 ℝ) ⟨1, 0, 0⟩ 0 c fn segs sp
            res).drop ⟨Real.sqrt, Real.arccos, Real.sin, Real.cos, Real.pi⟩
            enabled t,
          call.start = call.center ∧ call.stop = call.center := by
  have hrad : ∀ (ops : RealOps ℝ) (center from_ to_ : Vec3 ℝ) (fn : ℝ → ℝ),
      (from_to_param_converter ops center from_ to_ fn).2.2.2 =
        Vec3.distance ops.sqrt center from_ := fun ops center from_ to_ fn => rfl
  have hdeg : ∀ (ops0 : RealOps ℝ) (to0 : Vec3 ℝ) (fn : ℝ → ℝ),
      (from_to_param_converter ops0 (⟨0, 0, 0⟩ : Vec3 ℝ) ⟨0, 0, 0⟩ to0 fn).2.2.2 =
        ops0.sqrt 0 := by
    intro ops0 to0 fn
    rw [hrad]
    unfold Vec3.distance
    have h0 : ((⟨0, 0, 0⟩ : Vec3 ℝ) - ⟨0, 0, 0⟩).dot ((⟨0, 0, 0⟩ : Vec3 ℝ) - ⟨0, 0, 0⟩) =
        0 := by
      simp [Vec3.dot]
    rw [h0]
  refine ⟨hrad, ?_, ?_⟩
  · show (from_to_param_converter
        ⟨Real.sqrt, Real.arccos, Real.sin, Real.cos, Real.pi⟩
        (⟨0, 0, 0⟩ : Vec3 ℝ) ⟨0, 0, 0⟩ ⟨1, 0, 0⟩ id).2.2.2 = 0
    rw [hdeg]
    exact Real.sqrt_zero
  · intro C c fn segs sp t res enabled call hcall
    unfold AnimatedArcBuilder.drop at hcall
    by_cases he : enabled = true
    · subst he
      by_cases hseg : segs = 0
      · simp [hseg] at hcall
      · simp only [show (¬ (true = true)) = False from by simp, if_false,
          if_neg hseg] at hcall
        obtain ⟨w, hw, heq⟩ := List.mem_map.mp hcall
        subst heq
        have hr : (from_to_param_converter
            ⟨Real.sqrt, Real.arccos, Real.sin, Real.cos, Real.pi⟩
            (⟨0, 0, 0⟩ : Vec3 ℝ) ⟨0, 0, 0⟩ ⟨1, 0, 0⟩ fn).2.2.2 = 0 := by
          rw [hdeg]
          exact Real.sqrt_zero
        constructor <;>
          simp [hr, Quat.mul_vec3_zero]
    · simp [he] at hcall

/-- C9: the unsigned decomposition angle inside the converter always lies in
`[0, π]`; hence the identity ("short") policy returns an angle in `[0, π]`,
the "long" policy returns `0` or an angle in `[π, 2π]`, the negative branch
of `angle_fn_long` (which would return `-TAU - angle`) is never taken on a
nonnegative input, and the builder's later `angle.clamp(-TAU, TAU)` never
changes the returned angle under either policy. -/
theorem converter_angle_always_in_range :
    (∀ a b : Vec3 ℝ,
        0 ≤ (minRotAxisAngle
            ⟨Real.sqrt, Real.arccos, Real.sin, Real.cos, Real.pi⟩ a b).2 ∧
          (minRotAxisAngle
            ⟨Real.sqrt, Real.arccos, Real.sin, Real.cos, Real.pi⟩ a b).2 ≤
            Real.pi) ∧
      (∀ center from_ to_ : Vec3 ℝ,
        0 ≤ (from_to_param_converter
            ⟨Real.sqrt, Real.arccos, Real.sin, Real.cos, Real.pi⟩ center from_
            to_ id).2.2.1 ∧
          (from_to_param_converter
            ⟨Real.sqrt, Real.arccos, Real.sin, Real.cos, Real.pi⟩ center from_
            to_ id).2.2.1 ≤ Real.pi) ∧
      (∀ center from_ to_ : Vec3 ℝ,
        (from_to_param_converter
            ⟨Real.sqrt, Real.arccos, Real.sin, Real.cos, Real.pi⟩ center from_
            to_ (angle_fn_long (2 * Real.pi))).2.2.1 = 0 ∨
          (Real.pi ≤ (from_to_param_converter
              ⟨Real.sqrt, Real.arccos, Real.sin, Real.cos, Real.pi⟩ center
              from_ to_ (angle_fn_long (2 * Real.pi))).2.2.1 ∧
            (from_to_param_converter
              ⟨Real.sqrt, Real.arccos, Real.sin, Real.cos, Real.pi⟩ center
              from_ to_ (angle_fn_long (2 * Real.pi))).2.2.1 ≤ 2 * Real.pi)) ∧
      (∀ u : ℝ, 0 ≤ u →
        angle_fn_long (2 * Real.pi) u ≠ -(2 * Real.pi) - u) ∧
      (∀ center from_ to_ : Vec3 ℝ, ∀ fn ∈ [id, angle_fn_long (2 * Real.pi)],
        rustClamp (from_to_param_converter
            ⟨Real.sqrt, Real.arccos, Real.sin, Real.cos, Real.pi⟩ center from_
            to_ fn).2.2.1 (-(2 * Real.pi)) (2 * Real.pi) =
          (from_to_param_converter
            ⟨Real.sqrt, Real.arccos, Real.sin, Real.cos, Real.pi⟩ center from_
            to_ fn).2.2.1) := by
  have hpi := Real.pi_pos
  have hrange : ∀ a b : Vec3 ℝ,
      0 ≤ (minRotAxisAngle
          ⟨Real.sqrt, Real.arccos, Real.sin, Real.cos, Real.pi⟩ a b).2 ∧
        (minRotAxisAngle
          ⟨Real.sqrt, Real.arccos, Real.sin, Real.cos, Real.pi⟩ a b).2 ≤
          Real.pi := by
    intro a b
    unfold minRotAxisAngle
    split_ifs
    · exact ⟨le_of_lt hpi, le_refl _⟩
    · exact ⟨le_refl _, le_of_lt hpi⟩
    · exact ⟨Real.arccos_nonneg _, Real.arccos_le_pi _⟩
  have hshort : ∀ center from_ to_ : Vec3 ℝ,
      0 ≤ (from_to_param_converter
          ⟨Real.sqrt, Real.arccos, Real.sin, Real.cos, Real.pi⟩ center from_
          to_ id).2.2.1 ∧
        (from_to_param_converter
          ⟨Real.sqrt, Real.arccos, Real.sin, Real.cos, Real.pi⟩ center from_
          to_ id).2.2.1 ≤ Real.pi := by
    intro center from_ to_
    exact hrange _ _
  have hlong : ∀ center from_ to_ : Vec3 ℝ,
      (from_to_param_converter
          ⟨Real.sqrt, Real.arccos, Real.sin, Real.cos, Real.pi⟩ center from_
          to_ (angle_fn_long (2 * Real.pi))).2.2.1 = 0 ∨
        (Real.pi ≤ (from_to_param_converter
            ⟨Real.sqrt, Real.arccos, Real.sin, Real.cos, Real.pi⟩ center
            from_ to_ (angle_fn_long (2 * Real.pi))).2.2.1 ∧
          (from_to_param_converter
            ⟨Real.sqrt, Real.arccos, Real.sin, Real.cos, Real.pi⟩ center
            from_ to_ (angle_fn_long (2 * Real.pi))).2.2.1 ≤ 2 * Real.pi) := by
    intro center from_ to_
    obtain ⟨h0, hple⟩ := hrange (normalize_or_zero Real.sqrt (from_ - center))
      (normalize_or_zero Real.sqrt (to_ - center))
    have hconv : (from_to_param_converter
        ⟨Real.sqrt, Real.arccos, Real.sin, Real.cos, Real.pi⟩ center from_ to_
        (angle_fn_long (2 * Real.pi))).2.2.1 =
        angle_fn_long (2 * Real.pi) ((minRotAxisAngle
          ⟨Real.sqrt, Real.arccos, Real.sin, Real.cos, Real.pi⟩
          (normalize_or_zero Real.sqrt (from_ - center))
          (normalize_or_zero Real.sqrt (to_ - center))).2) := rfl
    rw [hconv]
    unfold angle_fn_long
    rcases lt_trichotomy (0 : ℝ) ((minRotAxisAngle
        ⟨Real.sqrt, Real.arccos, Real.sin, Real.cos, Real.pi⟩
        (normalize_or_zero Real.sqrt (from_ - center))
        (normalize_or_zero Real.sqrt (to_ - center))).2) with hu | hu | hu
    · right
      rw [if_pos hu]
      constructor <;> linarith
    · left
      rw [if_neg (by linarith), if_neg (by linarith)]
    · linarith
  refine ⟨hrange, hshort, hlong, ?_, ?_⟩
  · intro u hu
    unfold angle_fn_long
    split_ifs with h1 h2
    · intro h
      linarith
    · linarith
    · intro h
      linarith
  · intro center from_ to_ fn hfn
    simp only [List.mem_cons, List.mem_singleton] at hfn
    rcases hfn with rfl | rfl | h
    · obtain ⟨h0, hle⟩ := hshort center from_ to_
      exact rustClamp_eq_self (by linarith) (by linarith)
    · rcases hlong center from_ to_ with h0 | ⟨hge, hle⟩
      · rw [h0]
        exact rustClamp_eq_self (by linarith) (by linarith)
      · exact rustClamp_eq_self (by linarith) (by linarith)
    · cases h

/- ### The 2D polar arc scenario -/

theorem samplePhases_length (num_segments : ℕ) (delta_t speed : K) :
    (samplePhases num_segments delta_t speed).length = num_segments + 1 := by
  simp [samplePhases]

/-- Each sampled window is at most one half dash length `1/(2n)` wide. -/
theorem windowOf_width_le (n : ℕ) (p : K) :
    |(windowOf n p).1 - (windowOf n p).2| ≤ ((n : K) * 2)⁻¹ := by
  have hseg : (0 : K) ≤ ((n : K) * 2)⁻¹ := by positivity
  have h01 : (0 : K) ≤ 1 := by norm_num
  have hm : rustClamp (p - ((n : K) * 2)⁻¹) 0 1 ≤ rustClamp p 0 1 :=
    rustClamp_mono h01 (by linarith)
  have hs : rustClamp p 0 1 - rustClamp (p - ((n : K) * 2)⁻¹) 0 1 ≤
      p - (p - ((n : K) * 2)⁻¹) := rustClamp_sub_le 0 1 (by linarith)
  unfold windowOf
  rw [abs_of_nonpos (by linarith)]
  linarith

/-- The 2D arc builder's emitted `direction_angle` is monotone in the phase
when the arc angle is at least `1` radian. -/
theorem windowOf_dir_mono {A seg d : K} (hA : 1 ≤ A) (hseg : 0 ≤ seg) {p q : K}
    (hpq : p ≤ q) :
    d + rustClamp (p - seg) 0 1 * A + |rustClamp (p - seg) 0 1 - rustClamp p 0 1| ≤
      d + rustClamp (q - seg) 0 1 * A + |rustClamp (q - seg) 0 1 - rustClamp q 0 1| := by
  have h01 : (0 : K) ≤ 1 := by norm_num
  have ha : rustClamp (p - seg) 0 1 ≤ rustClamp p 0 1 :=
    rustClamp_mono h01 (by linarith)
  have ha' : rustClamp (q - seg) 0 1 ≤ rustClamp q 0 1 :=
    rustClamp_mono h01 (by linarith)
  have haa : rustClamp (p - seg) 0 1 ≤ rustClamp (q - seg) 0 1 :=
    rustClamp_mono h01 (by linarith)
  have hbb : rustClamp p 0 1 ≤ rustClamp q 0 1 := rustClamp_mono h01 hpq
  rw [abs_of_nonpos (by linarith), abs_of_nonpos (by linarith)]
  have hmul := mul_le_mul_of_nonneg_right haa (by linarith : (0 : K) ≤ A - 1)
  nlinarith [hmul, hbb]

/-- C3: the 2D polar arc builder with `direction_angle = 0`,
`arc_angle = π/2`, `radius = 1`, `segments = 5` (the default) emits, at every
elapsed time and speed, exactly 6 sub-arcs; each window `[w0, w1]` becomes
the sub-arc with `direction_angle' = 0 + w0 * (π/2) + |w0 - w1|` and
`arc_angle' = |w0 - w1| * (π/2)`; the six `arc_angle'` values sum to at most
`π/2`; and when the unclamped phases do not wrap around (they are
non-decreasing in window index), the `direction_angle'` values are
non-decreasing in window index. -/
theorem animated_arc_2d_scenario (c : C) (pos : Vec2 ℝ) (t speed : ℝ) :
    ((((animated_arc_2d pos 0 (Real.pi / 2) 1 c).set_speed speed).drop true t).length =
        6) ∧
      (((animated_arc_2d pos 0 (Real.pi / 2) 1 c).set_speed speed).drop true t =
        (sample_percentages 5 t speed).map (fun w =>
          ⟨pos, 0 + w.1 * (Real.pi / 2) + |w.1 - w.2|, |w.1 - w.2| * (Real.pi / 2), 1,
            c, none⟩)) ∧
      (((((animated_arc_2d pos 0 (Real.pi / 2) 1 c).set_speed speed).drop true t).map
          (fun a => a.arc_angle)).sum ≤ Real.pi / 2) ∧
      (List.Chain' (· ≤ ·) (samplePhases 5 t speed) →
        List.Chain' (· ≤ ·)
          ((((animated_arc_2d pos 0 (Real.pi / 2) 1 c).set_speed speed).drop true t).map
            (fun a => a.direction_angle))) := by
  have hdrop : ((animated_arc_2d pos 0 (Real.pi / 2) 1 c).set_speed speed).drop true t =
      (sample_percentages 5 t speed).map (fun w =>
        ⟨pos, 0 + w.1 * (Real.pi / 2) + |w.1 - w.2|, |w.1 - w.2| * (Real.pi / 2), 1,
          c, none⟩) := by
    dsimp only [animated_arc_2d, AnimatedArc2dBuilder.set_speed, AnimatedArc2dBuilder.drop]
    rw [if_neg (not_not_intro rfl), if_neg (by norm_num : ¬ (5 : ℕ) = 0)]
  have hwidth : ∀ w ∈ sample_percentages 5 t speed, |w.1 - w.2| ≤ (1 : ℝ) / 10 := by
    intro w hw
    rw [sample_percentages_eq] at hw
    rcases List.mem_map.mp hw with ⟨p, _, rfl⟩
    have := windowOf_width_le 5 p
    have h10 : (((5 : ℕ) : ℝ) * 2)⁻¹ = 1 / 10 := by norm_num
    rw [h10] at this
    exact this
  have hpi := Real.pi_pos
  have hpi3 := Real.pi_gt_three
  refine ⟨?_, hdrop, ?_, ?_⟩
  · rw [hdrop]
    simp [sample_percentages_length]
  · rw [hdrop, List.map_map]
    have hbound : ∀ x ∈ (sample_percentages 5 t speed).map
        ((fun a : Arc2dCall ℝ C => a.arc_angle) ∘ (fun w : ℝ × ℝ =>
          (⟨pos, 0 + w.1 * (Real.pi / 2) + |w.1 - w.2|, |w.1 - w.2| * (Real.pi / 2), 1,
            c, none⟩ : Arc2dCall ℝ C))),
        x ≤ (1 / 10) * (Real.pi / 2) := by
      intro x hx
      rcases List.mem_map.mp hx with ⟨w, hw, rfl⟩
      exact mul_le_mul_of_nonneg_right (hwidth w hw) (by linarith)
    have hsum := List.sum_le_card_nsmul _ _ hbound
    rw [List.length_map, sample_percentages_length] at hsum
    have : ((5 + 1 : ℕ) : ℝ) * ((1 / 10) * (Real.pi / 2)) ≤ Real.pi / 2 := by
      push_cast
      nlinarith
    calc ((sample_percentages 5 t speed).map _).sum ≤
          (5 + 1) • ((1 / 10) * (Real.pi / 2)) := hsum
      _ = ((5 + 1 : ℕ) : ℝ) * ((1 / 10) * (Real.pi / 2)) := by
          rw [nsmul_eq_mul]
      _ ≤ Real.pi / 2 := this
  · intro hchain
    rw [hdrop, sample_percentages_eq, List.map_map, List.map_map, List.chain'_map]
    refine List.Chain'.imp ?_ hchain
    intro p q hpq
    show 0 + rustClamp (p - (((5 : ℕ) : ℝ) * 2)⁻¹) 0 1 * (Real.pi / 2) +
        |rustClamp (p - (((5 : ℕ) : ℝ) * 2)⁻¹) 0 1 - rustClamp p 0 1| ≤
        0 + rustClamp (q - (((5 : ℕ) : ℝ) * 2)⁻¹) 0 1 * (Real.pi / 2) +
        |rustClamp (q - (((5 : ℕ) : ℝ) * 2)⁻¹) 0 1 - rustClamp q 0 1|
    exact windowOf_dir_mono (by linarith) (by positivity) hpq

end AnimatedGizmos
